import Mathlib

/-!
Shallow embedding of the telegram-bot-node repository: the sequential task
queue (src/extra.js), the handler predicates and the conversation state
machine (src/handlers.js), the access-control wrapper (src/utils.js,
src/constants.js), the update classifier (Update.type) and the dispatch task
body of App.getUpdates (src/unnamed/part_000), and the command argument
tokenizer (src/utils.js parseCommand).  JavaScript numbers that the code
uses as integers are modelled as Int/Nat; JavaScript `undefined` as
`Option.none`; fields of raw objects as `Option` fields.
-/

namespace TgBot

/-! ## Sequential task queue (src/extra.js, class Queue) -/

/-- The Queue state: main list `queue`, standby list `standby`, and the
`running` flag, as in the constructor of `class Queue`. -/
@[ext]
structure Queue (α : Type) where
  queue : List α
  standby : List α
  running : Bool
deriving Repr, DecidableEq

/-- `Queue.addTask`: push one task onto the main list. -/
def Queue.addTask (q : Queue α) (task : α) : Queue α :=
  {q with queue := q.queue ++ [task]}

/-- `Queue.addTasks`: push each task of the array onto the main list. -/
def Queue.addTasks (q : Queue α) (tasks : List α) : Queue α :=
  tasks.foldl Queue.addTask q

/-- `Queue.addStandby`: push one task onto the standby list. -/
def Queue.addStandby (q : Queue α) (task : α) : Queue α :=
  {q with standby := q.standby ++ [task]}

/-- `Queue.approveTaskById(index)`: guard on an empty standby list and an
out-of-range index, then push `standby[index]` onto the main list.  The
source does not remove the entry from the standby list. -/
def Queue.approveTaskById (q : Queue α) (index : Int) : Queue α :=
  if q.standby.length = 0 then q
  else if index < 0 ∨ (q.standby.length : Int) ≤ index then q
  else
    match q.standby.get? index.toNat with
    | some task => {q with queue := q.queue ++ [task]}
    | none => q

/-- `Queue.approveAllTasks()`: guard on an empty standby list, then push the
whole standby list onto the main list.  The source does not clear the
standby list. -/
def Queue.approveAllTasks (q : Queue α) : Queue α :=
  if q.standby.length = 0 then q
  else {q with queue := q.queue ++ q.standby}

/-- A task body, as used in the drain claims: a function on the shared log
(the observable effect of running the task). -/
def Task : Type := List Nat → List Nat

/-- The `while (this.queue.length > 0)` loop of `Queue.processQueue`: run the
head task on the shared log, then shift it off, until the list is empty. -/
def drainLoop : List Task → List Nat → List Nat
  | [], log => log
  | t :: rest, log => drainLoop rest (t log)

/-- `Queue.processQueue`: return unchanged if already running or empty;
otherwise set `running`, drain the main list head-first, then clear
`running` (so the final flag equals the initial `false`). -/
def Queue.processQueue (q : Queue Task) (log : List Nat) : Queue Task × List Nat :=
  if q.running || q.queue.isEmpty then (q, log)
  else ({q with queue := [], running := false}, drainLoop q.queue log)

/-- An empty, idle queue, as built by `new Queue()`. -/
def Queue.empty : Queue α := ⟨[], [], false⟩

/-- A task that appends its own id to the shared log (the spec's drain
scenario). -/
def appendTask (i : Nat) : Task := fun log => log ++ [i]

end TgBot

namespace TgBot

theorem drainLoop_eq_foldl (ts : List Task) (log : List Nat) :
    drainLoop ts log = ts.foldl (fun l t => t l) log := by
  induction ts generalizing log with
  | nil => rfl
  | cons t rest ih => simp [drainLoop, ih]

theorem addTasks_queue (ts : List α) (q : Queue α) :
    (Queue.addTasks q ts).queue = q.queue ++ ts ∧
    (Queue.addTasks q ts).standby = q.standby ∧
    (Queue.addTasks q ts).running = q.running := by
  induction ts generalizing q with
  | nil => simp [Queue.addTasks]
  | cons t rest ih =>
      have h := ih (Queue.addTask q t)
      simpa [Queue.addTasks, Queue.addTask, List.append_assoc] using h

theorem foldl_appendTask (ids : List Nat) (log : List Nat) :
    ids.foldl (fun l i => appendTask i l) log = log ++ ids := by
  induction ids generalizing log with
  | nil => simp
  | cons i rest ih =>
      simp only [appendTask] at ih ⊢
      simp only [List.foldl_cons]
      rw [ih]
      simp

theorem addTasks_empty_eq (ts : List α) :
    Queue.addTasks (Queue.empty : Queue α) ts = ⟨ts, [], false⟩ := by
  obtain ⟨h1, h2, h3⟩ := addTasks_queue ts (Queue.empty : Queue α)
  ext1
  · simpa [Queue.empty] using h1
  · simpa [Queue.empty] using h2
  · simpa [Queue.empty] using h3

theorem processQueue_build (ts : List Task) (log : List Nat) :
    Queue.processQueue (Queue.addTasks Queue.empty ts) log =
      (Queue.empty, drainLoop ts log) := by
  rw [addTasks_empty_eq]
  cases ts <;> rfl

/-- C8.  Calling `processQueue` while the queue is already running, or while
the main list is empty, returns immediately: the whole queue state (main
list, standby list, running flag) and the execution log are unchanged and no
task body runs. -/
theorem processQueue_noop_when_running_or_empty (q : Queue Task) (log : List Nat)
    (h : q.running = true ∨ q.queue = []) :
    q.processQueue log = (q, log) := by
  unfold Queue.processQueue
  rcases h with h | h <;> simp [h]

/-- Witness for C8 at a concrete already-running queue. -/
theorem processQueue_noop_witness :
    Queue.processQueue ⟨[], [], true⟩ [] = (⟨[], [], true⟩, []) :=
  processQueue_noop_when_running_or_empty ⟨[], [], true⟩ [] (Or.inl rfl)

/-- C6.  Tasks enqueued onto the main list and then drained run strictly in
FIFO order: the drain applies the task bodies as a left fold in enqueue
order (one task at a time, each run to completion before the next starts),
and in particular tasks that append their own id to a shared log leave the
log equal to the enqueue order. -/
theorem queue_drains_in_fifo_order :
    (∀ (ts : List Task) (log : List Nat),
      Queue.processQueue (Queue.addTasks Queue.empty ts) log =
        (Queue.empty, ts.foldl (fun l t => t l) log)) ∧
    (∀ (ids : List Nat) (log : List Nat),
      (Queue.processQueue (Queue.addTasks Queue.empty (ids.map appendTask)) log).2 =
        log ++ ids) := by
  constructor
  · intro ts log
    rw [processQueue_build, drainLoop_eq_foldl]
  · intro ids log
    rw [processQueue_build, drainLoop_eq_foldl, List.foldl_map]
    exact foldl_appendTask ids log

/-- Counterexample for C4 as frozen: approving standby entry 0 copies it to
the main queue but it is still present on the standby list. -/
theorem approveTask_leaves_standby_counterexample :
    Queue.approveTaskById (⟨[], [7], false⟩ : Queue Nat) 0 = ⟨[7], [7], false⟩ ∧
    ¬ (Queue.approveTaskById (⟨[], [7], false⟩ : Queue Nat) 0).standby = [] ∧
    (Queue.approveAllTasks (⟨[], [7], false⟩ : Queue Nat)).standby = [7] := by
  decide

/-- C4 (amended).  `approveTaskById` / `approveAllTasks` append the selected
standby entries to the tail of the main queue preserving their relative
order, leave the standby list itself unchanged (the entries are still on
standby), and never touch the `running` flag (promoting does not start
draining). -/
theorem approve_appends_preserving_standby (q : Queue α) (index : Int) :
    ((q.approveTaskById index).standby = q.standby ∧
      (q.approveTaskById index).running = q.running) ∧
    (q.approveAllTasks.standby = q.standby ∧
      q.approveAllTasks.running = q.running ∧
      q.approveAllTasks.queue = q.queue ++ q.standby) ∧
    (0 ≤ index → index < (q.standby.length : Int) →
      ∃ t, q.standby.get? index.toNat = some t ∧
        (q.approveTaskById index).queue = q.queue ++ [t]) := by
  refine ⟨?_, ?_, ?_⟩
  · unfold Queue.approveTaskById
    split
    · exact ⟨rfl, rfl⟩
    · split
      · exact ⟨rfl, rfl⟩
      · split
        · exact ⟨rfl, rfl⟩
        · exact ⟨rfl, rfl⟩
  · unfold Queue.approveAllTasks
    split
    · rename_i hlen
      have : q.standby = [] := List.length_eq_zero.mp hlen
      simp [this]
    · exact ⟨rfl, rfl, rfl⟩
  · intro h0 h1
    have hlt : index.toNat < q.standby.length := by omega
    have h2 : ¬ q.standby.length = 0 := by omega
    have h3 : ¬ (index < 0 ∨ (q.standby.length : Int) ≤ index) := by omega
    refine ⟨q.standby.get ⟨index.toNat, hlt⟩, List.get?_eq_get hlt, ?_⟩
    simp [Queue.approveTaskById, h2, h3, List.getElem?_eq_getElem hlt]

/-- Witness for C4's amended theorem at a concrete queue. -/
theorem approve_appends_preserving_standby_witness :
    ((Queue.approveTaskById (⟨[1], [7, 8], false⟩ : Queue Nat) 1).standby = [7, 8] ∧
      (Queue.approveTaskById (⟨[1], [7, 8], false⟩ : Queue Nat) 1).running = false) ∧
    ((Queue.approveAllTasks (⟨[1], [7, 8], false⟩ : Queue Nat)).standby = [7, 8] ∧
      (Queue.approveAllTasks (⟨[1], [7, 8], false⟩ : Queue Nat)).running = false ∧
      (Queue.approveAllTasks (⟨[1], [7, 8], false⟩ : Queue Nat)).queue = [1] ++ [7, 8]) ∧
    (∃ t, ([7, 8] : List Nat).get? (1 : Int).toNat = some t ∧
      (Queue.approveTaskById (⟨[1], [7, 8], false⟩ : Queue Nat) 1).queue = [1] ++ [t]) := by
  have h := approve_appends_preserving_standby (⟨[1], [7, 8], false⟩ : Queue Nat) 1
  exact ⟨h.1, h.2.1, h.2.2 (by decide) (by decide)⟩

/-! ## Raw updates and the classifier (src/unnamed/part_000, class Update;
src/constants.js, class UpdateType) -/

/-- The parts of a raw Telegram message this development needs: `text` is an
optional string field, `chat_id` the id of the chat the message belongs to
(`message.chat.id`). -/
structure Message where
  text : Option String := none
  chat_id : Int := 0
deriving Repr, DecidableEq

/-- The part of a raw `callback_query` object this development needs: its
optional `message`. -/
structure CallbackQuery where
  message : Option Message := none
deriving Repr, DecidableEq

/-- A raw update object.  `message` / `callback_query` model those top-level
fields; `otherFields` lists the names of any further top-level discriminant
fields present on the raw object. -/
structure RawUpdate where
  message : Option Message := none
  callback_query : Option CallbackQuery := none
  otherFields : List String := []
deriving Repr, DecidableEq

/-- `UpdateType.ALL` of src/constants.js: the string-valued static members
of `class UpdateType` in definition order. -/
def UpdateTypeALL : List String :=
  ["message", "edited_message", "channel_post", "edited_channel_post",
   "business_connection", "business_message", "edited_business_message",
   "deleted_business_message", "message_reaction", "message_reaction_count",
   "inline_query", "chosen_inline_result", "callback_query", "shipping_query",
   "pre_checkout_query", "purchased_paid_media", "poll", "my_chat_member",
   "chat_member", "chat_join_request", "chat_boost", "removed_chat_boost"]

/-- `this.update.hasOwnProperty(type)`: whether a top-level field of the
given name is present on the raw update object. -/
def RawUpdate.hasField (u : RawUpdate) (f : String) : Bool :=
  if f = "message" then u.message.isSome
  else if f = "callback_query" then u.callback_query.isSome
  else u.otherFields.contains f

/-- The `Update.type` accessor: scan `UpdateType.ALL` in order and return
the first kind whose field is present, else the explicit unknown marker. -/
def RawUpdate.type (u : RawUpdate) : String :=
  (UpdateTypeALL.find? (fun t => u.hasField t)).getD "Unknown Update Type"

/-- `update.message?.chat.id || update.callback_query?.message?.chat.id`
from `ConversationHandler.handle`: JavaScript `||` falls through on the
falsy values `undefined` (here `none`) and `0`. -/
def jsChatId (u : RawUpdate) : Option Int :=
  match u.message with
  | some m =>
      if m.chat_id ≠ 0 then some m.chat_id
      else (u.callback_query.bind (fun c => c.message)).map (fun m2 => m2.chat_id)
  | none => (u.callback_query.bind (fun c => c.message)).map (fun m2 => m2.chat_id)

/-! ## Conversation state machine (src/handlers.js, class ConversationHandler) -/

/-- A handler as the conversation machine and the dispatcher see it: a
filter (`canHandle`) and the value its callback returns (`result`, with
`none` for a callback that returns `undefined`).  `id` tags the handler so
runs can be observed in an execution log. -/
structure CHandler where
  id : Nat
  canHandle : RawUpdate → Bool
  result : RawUpdate → Option Int

/-- The `activeConversations` map: insertion-ordered association list from
chat key (possibly the `undefined` key) to the stored state token (possibly
`undefined`). -/
abbrev Registry := List (Option Int × Option Int)

/-- `Map.prototype.has`. -/
def mapHas (m : Registry) (k : Option Int) : Bool :=
  m.any (fun p => p.1 == k)

/-- `Map.prototype.get` (returns `undefined` when the key is absent). -/
def mapGet (m : Registry) (k : Option Int) : Option Int :=
  match m.find? (fun p => p.1 == k) with
  | some p => p.2
  | none => none

/-- `Map.prototype.set`: update an existing key in place, else append. -/
def mapSet (m : Registry) (k v : Option Int) : Registry :=
  if mapHas m k then m.map (fun p => if p.1 == k then (k, v) else p)
  else m ++ [(k, v)]

/-- `Map.prototype.delete`. -/
def mapDel (m : Registry) (k : Option Int) : Registry :=
  m.filter (fun p => p.1 != k)

/-- The configuration passed to the `ConversationHandler` constructor. -/
structure ConvConfig where
  entryPoints : List CHandler
  states : List (Int × List CHandler)
  fallbacks : List CHandler := []
  globalHandlers : List CHandler := []

/-- The mutable fields of a `ConversationHandler` instance. -/
structure ConvState where
  registry : Registry := []
  isEnded : Bool := false
  activeState : Option Int := none
deriving Repr, DecidableEq

/-- `this.states[state]`: object lookup by the stored token; the lookup of
the `undefined` token finds nothing. -/
def lookupState (states : List (Int × List CHandler)) : Option Int → Option (List CHandler)
  | none => none
  | some k => (states.find? (fun p => p.1 == k)).map (fun p => p.2)

/-- The global-handler loop of `ConversationHandler.handle`: run every
matching global handler in order; stop early (reporting `true`) as soon as
one returns `-1`. -/
def runGlobals (u : RawUpdate) : List CHandler → List Nat × Bool
  | [] => ([], false)
  | h :: t =>
      if h.canHandle u then
        if h.result u == some (-1) then ([h.id], true)
        else
          let r := runGlobals u t
          (h.id :: r.1, r.2)
      else runGlobals u t

/-- First handler of the list whose filter accepts the update. -/
def firstMatch (u : RawUpdate) (hs : List CHandler) : Option CHandler :=
  hs.find? (fun h => h.canHandle u)

/-- The fallback loop: run the first matching fallback, if any. -/
def runFallbacks (u : RawUpdate) (hs : List CHandler) : List Nat :=
  match firstMatch u hs with
  | some h => [h.id]
  | none => []

/-- `ConversationHandler.handle`, returning the new instance state, the ids
of the callbacks that ran, and the method's JavaScript return value (which
is `undefined` on every path of the source). -/
def convHandle (cfg : ConvConfig) (st : ConvState) (u : RawUpdate) :
    ConvState × List Nat × Option Int :=
  let key := jsChatId u
  if mapHas st.registry key then
    let state := mapGet st.registry key
    match lookupState cfg.states state with
    | some handlers =>
        let g := runGlobals u cfg.globalHandlers
        if g.2 then
          ({st with isEnded := true, registry := mapDel st.registry key}, g.1, none)
        else
          match firstMatch u handlers with
          | some h =>
              let ns := h.result u
              if ns == some (-1) then
                ({st with
                    activeState := ns
                    isEnded := true
                    registry := mapDel st.registry key}, g.1 ++ [h.id], none)
              else
                ({st with
                    activeState := ns
                    registry := mapSet st.registry key ns}, g.1 ++ [h.id], none)
          | none => (st, g.1 ++ runFallbacks u cfg.fallbacks, none)
    | none => (st, runFallbacks u cfg.fallbacks, none)
  else
    match firstMatch u cfg.entryPoints with
    | some h =>
        let initState := h.result u
        if initState == some (-1) then (st, [h.id], none)
        else ({st with registry := mapSet st.registry key initState}, [h.id], none)
    | none => (st, runFallbacks u cfg.fallbacks, none)

/-! ## Dispatch task body of App.getUpdates (src/unnamed/part_000) -/

/-- The flat ordered list of globally registered handlers: every handler's
`handle` is awaited in order, and each one whose filter accepts the update
runs its callback. -/
def flatRun (u : RawUpdate) (hs : List CHandler) : List Nat :=
  (hs.filter (fun h => h.canHandle u)).map (fun h => h.id)

/-- JavaScript truthiness of the value `ConversationHandler.handle` returns
(`undefined` and `0` are falsy). -/
def jsTruthyInt : Option Int → Bool
  | some n => n ≠ 0
  | none => false

/-- The dispatch task body of `App.getUpdates`: route through the
conversation handler when one is registered, reset it when it reports
ended, stop if its return value is truthy, else run the flat handler
list. -/
def appDispatch (conv : Option ConvConfig) (cst : ConvState) (flat : List CHandler)
    (u : RawUpdate) : ConvState × List Nat :=
  match conv with
  | some cfg =>
      let r := convHandle cfg cst u
      let cst2 := if r.1.isEnded then {r.1 with isEnded := false, activeState := none} else r.1
      if jsTruthyInt r.2.2 then (cst2, r.2.1)
      else (cst2, r.2.1 ++ flatRun u flat)
  | none => (cst, flatRun u flat)

theorem mapSet_of_not_has (m : Registry) (k v : Option Int) (h : mapHas m k = false) :
    mapSet m k v = m ++ [(k, v)] := by
  simp [mapSet, h]

theorem mapHas_append_self (m : Registry) (k v : Option Int) :
    mapHas (m ++ [(k, v)]) k = true := by
  simp [mapHas]

theorem not_has_forall (m : Registry) (k : Option Int) (h : mapHas m k = false) :
    ∀ p ∈ m, (p.1 == k) = false := by
  intro p hp
  cases hb : (p.1 == k) with
  | false => rfl
  | true =>
      exfalso
      have hany : m.any (fun q => q.1 == k) = true := List.any_eq_true.mpr ⟨p, hp, hb⟩
      rw [mapHas, hany] at h
      cases h

theorem find?_none_of_not_has (m : Registry) (k : Option Int) (h : mapHas m k = false) :
    m.find? (fun p => p.1 == k) = none :=
  List.find?_eq_none.mpr (by
    intro p hp
    simpa using not_has_forall m k h p hp)

theorem mapGet_append_self (m : Registry) (k v : Option Int) (h : mapHas m k = false) :
    mapGet (m ++ [(k, v)]) k = v := by
  simp [mapGet, List.find?_append, find?_none_of_not_has m k h]

theorem mapHas_append_ne (m : Registry) (k v k2 : Option Int) (hne : k ≠ k2) :
    mapHas (m ++ [(k, v)]) k2 = mapHas m k2 := by
  simp [mapHas, List.any_append, hne]

theorem mapGet_append_ne (m : Registry) (k v k2 : Option Int) (hne : k ≠ k2) :
    mapGet (m ++ [(k, v)]) k2 = mapGet m k2 := by
  simp only [mapGet, List.find?_append]
  have hb : (k == k2) = false := beq_eq_false_iff_ne.mpr hne
  have h1 : List.find? (fun p => p.1 == k2) [(k, v)] = none := by
    simp [List.find?, hb]
  rw [h1]
  cases List.find? (fun p => p.1 == k2) m <;> rfl

theorem mapDel_append_self (m : Registry) (k v : Option Int) (h : mapHas m k = false) :
    mapDel (m ++ [(k, v)]) k = m := by
  simp only [mapDel, List.filter_append]
  have h1 : List.filter (fun p => p.1 != k) [(k, v)] = [] := by simp
  have h2 : List.filter (fun p => p.1 != k) m = m :=
    List.filter_eq_self.mpr (by
      intro p hp
      simpa using not_has_forall m k h p hp)
  rw [h1, h2, List.append_nil]

theorem convHandle_returns_undefined (cfg : ConvConfig) (st : ConvState) (u : RawUpdate) :
    (convHandle cfg st u).2.2 = none := by
  unfold convHandle
  dsimp only
  repeat' split
  all_goals rfl

/-- C1.  Because `ConversationHandler.handle` returns `undefined` on every
path, the dispatch task body of `App.getUpdates` never takes its
`if (handled) return` early exit: the flat ordered list of globally
registered handlers runs for every submitted event, even when a
conversation handler fired.  The second conjunct shows this at a concrete
event where a conversation entry point (id 1) fires and the flat handler
(id 2) still runs. -/
theorem dispatch_runs_flat_handlers_despite_conversation :
    (∀ (cfg : ConvConfig) (cst : ConvState) (flat : List CHandler) (u : RawUpdate),
      (appDispatch (some cfg) cst flat u).2 = (convHandle cfg cst u).2.1 ++ flatRun u flat) ∧
    (appDispatch (some ⟨[⟨1, fun _ => true, fun _ => some 1⟩], [], [], []⟩)
        ⟨[], false, none⟩ [⟨2, fun _ => true, fun _ => none⟩]
        ⟨some ⟨some "go", 5⟩, none, []⟩).2 = [1, 2] := by
  constructor
  · intro cfg cst flat u
    unfold appDispatch
    dsimp only
    rw [convHandle_returns_undefined]
    rfl
  · rfl

/-- Counterexample for C5 as frozen: an entry point matches, its callback
returns no next-state token (`undefined`), and afterwards the registry
*does* contain an entry for the conversation identity (chat 5), mapped to
the `undefined` token. -/
theorem conversation_unregistered_claim_counterexample :
    mapHas (convHandle ⟨[⟨1, fun _ => true, fun _ => none⟩], [], [], []⟩
        ⟨[], false, none⟩ ⟨some ⟨some "go", 5⟩, none, []⟩).1.registry (some 5) = true ∧
    (convHandle ⟨[⟨1, fun _ => true, fun _ => none⟩], [], [], []⟩
        ⟨[], false, none⟩ ⟨some ⟨some "go", 5⟩, none, []⟩).1.registry = [(some 5, none)] :=
  ⟨rfl, rfl⟩

/-- C5 (amended).  When an entry-point handler matches an event whose
conversation identity has no registry entry and its result carries no
explicit next-state token, the identity is *registered with the
`undefined` token*: the registry gains exactly the entry
`(identity, undefined)` at its tail, and every other identity's presence
and stored state are unchanged. -/
theorem conversation_entry_undefined_token_registers
    (cfg : ConvConfig) (st : ConvState) (u : RawUpdate) (e : CHandler)
    (hreg : mapHas st.registry (jsChatId u) = false)
    (hfm : firstMatch u cfg.entryPoints = some e)
    (hres : e.result u = none) :
    (convHandle cfg st u).1.registry = st.registry ++ [(jsChatId u, none)] ∧
    (convHandle cfg st u).2.1 = [e.id] ∧
    ∀ k2, jsChatId u ≠ k2 →
      mapHas (convHandle cfg st u).1.registry k2 = mapHas st.registry k2 ∧
      mapGet (convHandle cfg st u).1.registry k2 = mapGet st.registry k2 := by
  have hmain : (convHandle cfg st u).1.registry = st.registry ++ [(jsChatId u, none)] ∧
      (convHandle cfg st u).2.1 = [e.id] := by
    have hbeq : ((none : Option Int) == some (-1)) = false := rfl
    unfold convHandle
    dsimp only
    rw [hreg]
    simp only [Bool.false_eq_true, if_false, hfm, hres, hbeq]
    exact ⟨mapSet_of_not_has st.registry (jsChatId u) none hreg, trivial⟩
  refine ⟨hmain.1, hmain.2, ?_⟩
  intro k2 hk2
  rw [hmain.1]
  exact ⟨mapHas_append_ne st.registry (jsChatId u) none k2 hk2,
    mapGet_append_ne st.registry (jsChatId u) none k2 hk2⟩

/-- Witness for C5's amended theorem at a concrete configuration. -/
theorem conversation_entry_undefined_token_registers_witness :
    (convHandle ⟨[⟨3, fun _ => true, fun _ => none⟩], [], [], []⟩
        ⟨[(some 9, some 0)], false, none⟩ ⟨some ⟨some "go", 5⟩, none, []⟩).1.registry =
      [(some 9, some 0)] ++ [(some 5, none)] ∧
    (convHandle ⟨[⟨3, fun _ => true, fun _ => none⟩], [], [], []⟩
        ⟨[(some 9, some 0)], false, none⟩ ⟨some ⟨some "go", 5⟩, none, []⟩).2.1 = [3] ∧
    ∀ k2, (some 5 : Option Int) ≠ k2 →
      mapHas (convHandle ⟨[⟨3, fun _ => true, fun _ => none⟩], [], [], []⟩
          ⟨[(some 9, some 0)], false, none⟩ ⟨some ⟨some "go", 5⟩, none, []⟩).1.registry k2 =
        mapHas [(some 9, some 0)] k2 ∧
      mapGet (convHandle ⟨[⟨3, fun _ => true, fun _ => none⟩], [], [], []⟩
          ⟨[(some 9, some 0)], false, none⟩ ⟨some ⟨some "go", 5⟩, none, []⟩).1.registry k2 =
        mapGet [(some 9, some 0)] k2 :=
  conversation_entry_undefined_token_registers
    ⟨[⟨3, fun _ => true, fun _ => none⟩], [], [], []⟩
    ⟨[(some 9, some 0)], false, none⟩ ⟨some ⟨some "go", 5⟩, none, []⟩
    ⟨3, fun _ => true, fun _ => none⟩ (by rfl) (by rfl) (by rfl)

theorem convHandle_entry_register (cfg : ConvConfig) (st : ConvState) (u : RawUpdate)
    (e : CHandler) (s : Int)
    (hreg : mapHas st.registry (jsChatId u) = false)
    (hfm : firstMatch u cfg.entryPoints = some e)
    (hres : e.result u = some s) (hs : s ≠ -1) :
    convHandle cfg st u =
      ({st with registry := mapSet st.registry (jsChatId u) (some s)}, [e.id], none) := by
  have hbeq : ((some s : Option Int) == some (-1)) = false :=
    beq_eq_false_iff_ne.mpr (fun hcon => hs (Option.some.inj hcon))
  unfold convHandle
  dsimp only
  rw [hreg]
  simp only [Bool.false_eq_true, if_false, hfm, hres, hbeq]

theorem convHandle_state_terminate (cfg : ConvConfig) (st : ConvState) (u : RawUpdate)
    (h : CHandler) (s : Int) (hl : List CHandler)
    (hhas : mapHas st.registry (jsChatId u) = true)
    (hget : mapGet st.registry (jsChatId u) = some s)
    (hlk : lookupState cfg.states (some s) = some hl)
    (hglob : cfg.globalHandlers = [])
    (hfm : firstMatch u hl = some h)
    (hres : h.result u = some (-1)) :
    convHandle cfg st u =
      ({st with
          activeState := some (-1)
          isEnded := true
          registry := mapDel st.registry (jsChatId u)}, [h.id], none) := by
  unfold convHandle
  dsimp only
  rw [hhas, hget, hlk, hglob]
  simp only [if_true, runGlobals, hfm, hres, beq_self_eq_true, if_pos, List.nil_append,
    Bool.false_eq_true, if_false]

theorem convHandle_entry_fires (cfg : ConvConfig) (st : ConvState) (u : RawUpdate)
    (e : CHandler)
    (hreg : mapHas st.registry (jsChatId u) = false)
    (hfm : firstMatch u cfg.entryPoints = some e) :
    (convHandle cfg st u).2.1 = [e.id] := by
  unfold convHandle
  dsimp only
  rw [hreg]
  simp only [Bool.false_eq_true, if_false, hfm]
  split <;> rfl

/-- C7.  With an entry point transitioning to state `s1` and a state-`s1`
handler returning the terminal sentinel `-1`, submitting the entry event
and then the state event for the same conversation identity leaves the
registry exactly as it started — in particular with no entry for that
identity — and a later event for that identity fires the entry point
again. -/
theorem conversation_terminate_removes_entry
    (cfg : ConvConfig) (e h : CHandler) (s1 : Int) (st0 : ConvState)
    (u1 u2 : RawUpdate) (k : Option Int)
    (hcfg1 : cfg.entryPoints = [e]) (hcfg2 : cfg.states = [(s1, [h])])
    (hcfg3 : cfg.globalHandlers = [])
    (hk1 : jsChatId u1 = k) (hk2 : jsChatId u2 = k)
    (hreg : mapHas st0.registry k = false)
    (hce : e.canHandle u1 = true) (hre : e.result u1 = some s1) (hs1 : s1 ≠ -1)
    (hch : h.canHandle u2 = true) (hrh : h.result u2 = some (-1)) :
    mapHas (convHandle cfg (convHandle cfg st0 u1).1 u2).1.registry k = false ∧
    (convHandle cfg (convHandle cfg st0 u1).1 u2).1.registry = st0.registry ∧
    ∀ u3, jsChatId u3 = k → e.canHandle u3 = true →
      (convHandle cfg (convHandle cfg (convHandle cfg st0 u1).1 u2).1 u3).2.1 = [e.id] := by
  have hfm1 : firstMatch u1 cfg.entryPoints = some e := by
    rw [hcfg1]
    simp [firstMatch, List.find?, hce]
  have hstep1 : convHandle cfg st0 u1 =
      ({st0 with registry := st0.registry ++ [(k, some s1)]}, [e.id], none) := by
    have h1 := convHandle_entry_register cfg st0 u1 e s1 (by rw [hk1]; exact hreg) hfm1 hre hs1
    rw [hk1, mapSet_of_not_has st0.registry k (some s1) hreg] at h1
    exact h1
  have hstep2 : convHandle cfg ({st0 with registry := st0.registry ++ [(k, some s1)]} : ConvState) u2 =
      ({st0 with
          activeState := some (-1)
          isEnded := true
          registry := st0.registry}, [h.id], none) := by
    have h2 := convHandle_state_terminate cfg
      ({st0 with registry := st0.registry ++ [(k, some s1)]}) u2 h s1 [h]
      (by rw [hk2]; exact mapHas_append_self st0.registry k (some s1))
      (by rw [hk2]; exact mapGet_append_self st0.registry k (some s1) hreg)
      (by rw [hcfg2]; simp [lookupState]) hcfg3
      (by simp [firstMatch, List.find?, hch]) hrh
    rw [hk2] at h2
    rw [h2]
    simp [mapDel_append_self st0.registry k (some s1) hreg]
  rw [hstep1]
  dsimp only
  rw [hstep2]
  dsimp only
  refine ⟨hreg, rfl, ?_⟩
  intro u3 hk3 hce3
  exact convHandle_entry_fires cfg _ u3 e (by rw [hk3]; exact hreg)
    (by rw [hcfg1]; simp [firstMatch, List.find?, hce3])

/-- Witness for C7 at a concrete conversation: entry point 1 sends chat 5 to
state 2, state handler 4 terminates, and entry point 1 fires again on a
third event. -/
theorem conversation_terminate_removes_entry_witness :
    mapHas (convHandle ⟨[⟨1, fun _ => true, fun _ => some 2⟩], [(2, [⟨4, fun _ => true, fun _ => some (-1)⟩])], [], []⟩
        (convHandle ⟨[⟨1, fun _ => true, fun _ => some 2⟩], [(2, [⟨4, fun _ => true, fun _ => some (-1)⟩])], [], []⟩
          ⟨[], false, none⟩ ⟨some ⟨some "go", 5⟩, none, []⟩).1
        ⟨some ⟨some "data", 5⟩, none, []⟩).1.registry (some 5) = false ∧
    (convHandle ⟨[⟨1, fun _ => true, fun _ => some 2⟩], [(2, [⟨4, fun _ => true, fun _ => some (-1)⟩])], [], []⟩
        (convHandle ⟨[⟨1, fun _ => true, fun _ => some 2⟩], [(2, [⟨4, fun _ => true, fun _ => some (-1)⟩])], [], []⟩
          ⟨[], false, none⟩ ⟨some ⟨some "go", 5⟩, none, []⟩).1
        ⟨some ⟨some "data", 5⟩, none, []⟩).1.registry = [] ∧
    ∀ u3, jsChatId u3 = some 5 → (fun (_ : RawUpdate) => true) u3 = true →
      (convHandle ⟨[⟨1, fun _ => true, fun _ => some 2⟩], [(2, [⟨4, fun _ => true, fun _ => some (-1)⟩])], [], []⟩
        (convHandle ⟨[⟨1, fun _ => true, fun _ => some 2⟩], [(2, [⟨4, fun _ => true, fun _ => some (-1)⟩])], [], []⟩
          (convHandle ⟨[⟨1, fun _ => true, fun _ => some 2⟩], [(2, [⟨4, fun _ => true, fun _ => some (-1)⟩])], [], []⟩
            ⟨[], false, none⟩ ⟨some ⟨some "go", 5⟩, none, []⟩).1
          ⟨some ⟨some "data", 5⟩, none, []⟩).1 u3).2.1 = [1] :=
  conversation_terminate_removes_entry
    ⟨[⟨1, fun _ => true, fun _ => some 2⟩], [(2, [⟨4, fun _ => true, fun _ => some (-1)⟩])], [], []⟩
    ⟨1, fun _ => true, fun _ => some 2⟩ ⟨4, fun _ => true, fun _ => some (-1)⟩ 2
    ⟨[], false, none⟩ ⟨some ⟨some "go", 5⟩, none, []⟩ ⟨some ⟨some "data", 5⟩, none, []⟩ (some 5)
    rfl rfl rfl rfl rfl rfl rfl rfl (by decide) rfl rfl

theorem find?_first_unique (l : List String) (p : String → Bool) (k : String)
    (hk : k ∈ l) (hpk : p k = true) (huniq : ∀ t ∈ l, t ≠ k → p t = false) :
    l.find? p = some k := by
  induction l with
  | nil => cases hk
  | cons a t ih =>
      by_cases ha : a = k
      · subst ha
        rw [List.find?_cons_of_pos _ hpk]
      · have hpa : p a = false := huniq a (List.mem_cons_self a t) ha
        rw [List.find?_cons_of_neg _ (by simp [hpa])]
        refine ih ?_ ?_
        · rcases List.mem_cons.mp hk with h | h
          · exact absurd h.symm ha
          · exact h
        · intro t' ht' hne
          exact huniq t' (List.mem_cons_of_mem _ ht') hne

/-- C9.  The `Update.type` accessor scans `UpdateType.ALL` in order and
returns the first kind whose field is present on the raw update: when
exactly one known discriminant field is present it returns that kind, and
when none is present it returns the explicit unknown marker instead of
failing. -/
theorem classify_first_present_kind :
    (∀ (u : RawUpdate) (k : String), k ∈ UpdateTypeALL → u.hasField k = true →
      (∀ t ∈ UpdateTypeALL, t ≠ k → u.hasField t = false) → RawUpdate.type u = k) ∧
    (∀ u : RawUpdate, (∀ t ∈ UpdateTypeALL, u.hasField t = false) →
      RawUpdate.type u = "Unknown Update Type") := by
  constructor
  · intro u k hk hpk huniq
    unfold RawUpdate.type
    rw [find?_first_unique UpdateTypeALL (fun t => u.hasField t) k hk hpk huniq]
    rfl
  · intro u hall
    unfold RawUpdate.type
    rw [List.find?_eq_none.mpr (by intro t ht; simp [hall t ht])]
    rfl

/-- Witness for C9: a raw update carrying only `message` classifies as
`message`; one with no known field classifies as the unknown marker. -/
theorem classify_first_present_kind_witness :
    RawUpdate.type ⟨some ⟨none, 1⟩, none, []⟩ = "message" ∧
    RawUpdate.type ⟨none, none, []⟩ = "Unknown Update Type" :=
  ⟨classify_first_present_kind.1 ⟨some ⟨none, 1⟩, none, []⟩ "message"
      (by decide) rfl (by decide),
   classify_first_present_kind.2 ⟨none, none, []⟩ (by decide)⟩

/-! ## Command handler predicate (src/handlers.js, class CommandHandler) -/

/-- `String.prototype.startsWith`. -/
def jsStartsWith (pre s : String) : Bool :=
  pre.data.isPrefixOf s.data

/-- The truthiness chain `update?.message?.text`: the text string when the
message and its text are present and the text is nonempty, else a falsy
value. -/
def textTruthy (u : RawUpdate) : Option String :=
  match u.message with
  | none => none
  | some m =>
      match m.text with
      | none => none
      | some t => if t = "" then none else some t

/-- The `CommandHandler` constructor's filter:
`update.type === "message" && update?.message?.text &&
update.message.text.startsWith("/" + command)`. -/
def commandFilter (command : String) (u : RawUpdate) : Bool :=
  (RawUpdate.type u == "message") &&
    (match textTruthy u with
     | none => false
     | some t => jsStartsWith ("/" ++ command) t)

/-- Counterexample for C2 as frozen: the handler registered for `start`
accepts the message text `"/starter"`, because the filter is a bare
`startsWith` with no delimiter check. -/
theorem command_filter_matches_starter_counterexample :
    commandFilter "start" ⟨some ⟨some "/starter", 1⟩, none, []⟩ = true := by
  decide

theorem type_message_of_message_present (u : RawUpdate) (m : Message)
    (hm : u.message = some m) : RawUpdate.type u = "message" := by
  unfold RawUpdate.type UpdateTypeALL
  rw [List.find?_cons_of_pos _ (by simp [RawUpdate.hasField, hm])]
  rfl

/-- C2 (amended).  The command-handler predicate for a configured literal
token matches exactly those updates carrying a message with nonempty text
of which `/` followed by the token is a *prefix* — with no delimiter
check.  Hence `start` matches `"/start"`, `"/start extra"` and also
`"/starter"`, and does not match `"start"`. -/
theorem command_filter_prefix_semantics :
    (∀ (cmd : String) (u : RawUpdate),
      commandFilter cmd u = true ↔
        ∃ m t, u.message = some m ∧ m.text = some t ∧ t ≠ "" ∧
          jsStartsWith ("/" ++ cmd) t = true) ∧
    commandFilter "start" ⟨some ⟨some "/start", 1⟩, none, []⟩ = true ∧
    commandFilter "start" ⟨some ⟨some "/start extra", 1⟩, none, []⟩ = true ∧
    commandFilter "start" ⟨some ⟨some "/starter", 1⟩, none, []⟩ = true ∧
    commandFilter "start" ⟨some ⟨some "start", 1⟩, none, []⟩ = false := by
  refine ⟨?_, by decide, by decide, by decide, by decide⟩
  intro cmd u
  constructor
  · intro hc
    unfold commandFilter at hc
    rw [Bool.and_eq_true] at hc
    obtain ⟨-, h2⟩ := hc
    cases hmsg : u.message with
    | none => rw [textTruthy, hmsg] at h2; cases h2
    | some m =>
        cases htext : m.text with
        | none => rw [textTruthy, hmsg] at h2; simp only [htext] at h2; cases h2
        | some t =>
            rw [textTruthy, hmsg] at h2
            simp only [htext] at h2
            by_cases hte : t = ""
            · rw [if_pos hte] at h2; cases h2
            · rw [if_neg hte] at h2
              exact ⟨m, t, rfl, htext, hte, h2⟩
  · rintro ⟨m, t, hm, ht, hne, hpre⟩
    unfold commandFilter
    rw [Bool.and_eq_true]
    constructor
    · rw [type_message_of_message_present u m hm]
      rfl
    · rw [textTruthy, hm]
      simp only [ht, if_neg hne]
      exact hpre

/-- Witness for C2's amended theorem: the characterization applied at the
`"/start extra"` example. -/
theorem command_filter_prefix_semantics_witness :
    ∃ m t, (⟨some ⟨some "/start extra", 1⟩, none, []⟩ : RawUpdate).message = some m ∧
      m.text = some t ∧ t ≠ "" ∧ jsStartsWith ("/" ++ "start") t = true :=
  (command_filter_prefix_semantics.1 "start" ⟨some ⟨some "/start extra", 1⟩, none, []⟩).mp
    (by decide)

/-! ## Access control (src/utils.js accessControl, src/constants.js Permissions) -/

namespace Permissions

def NONE : Nat := 0
def MEMBER : Nat := 1 <<< 0
def ADMIN : Nat := 1 <<< 1
def OWNER : Nat := 1 <<< 2
def ALL : Nat := (1 <<< 0) ||| (1 <<< 1) ||| (1 <<< 2)

end Permissions

/-- The permission computation inside the wrapper `accessControl` returns:
OR in `Permissions.ADMIN` for admins, then the `Permissions.SECADMIN`
branch for secondary admins (that constant does not exist in
src/constants.js, so JavaScript coerces the `undefined` operand of `|=` to
0), then unconditionally OR in `Permissions.ALL`. -/
def computeUserPermissions (isAdmin isSecadmin : Bool) : Nat :=
  let p1 := if isAdmin then 0 ||| Permissions.ADMIN else 0
  let p2 := if isSecadmin then p1 ||| 0 else p1
  p2 ||| Permissions.ALL

/-- What the wrapped handler observes: either it is invoked or the deny
branch sends the access-denied message. -/
inductive AccessOutcome
  | invoked
  | denied
deriving Repr, DecidableEq

/-- `hasAccess = (userPermissions & requiredPermissions) > 0`. -/
def accessDecision (required : Nat) (isAdmin isSecadmin : Bool) : Bool :=
  decide (computeUserPermissions isAdmin isSecadmin &&& required > 0)

/-- The branch the wrapper returned by `accessControl(requiredPermissions)`
takes for a user with the given admin flags. -/
def accessControl (required : Nat) (isAdmin isSecadmin : Bool) : AccessOutcome :=
  if accessDecision required isAdmin isSecadmin then AccessOutcome.invoked
  else AccessOutcome.denied

theorem computeUserPermissions_eq_all (a s : Bool) :
    computeUserPermissions a s = 7 := by
  cases a <;> cases s <;> decide

/-- C3.  The wrapper's decision is independent of the acting user; for any
required mask drawn from the `Permissions` constants (a submask of
`Permissions.ALL`) other than `Permissions.NONE` it always invokes the
wrapped handler, and the deny branch is reachable exactly when the
required mask is `Permissions.NONE`. -/
theorem accessControl_ignores_user (required : Nat) (a1 s1 a2 s2 : Bool) :
    (accessControl required a1 s1 = accessControl required a2 s2) ∧
    (required &&& Permissions.ALL = required → required ≠ Permissions.NONE →
      accessControl required a1 s1 = AccessOutcome.invoked) ∧
    (required &&& Permissions.ALL = required →
      (accessControl required a1 s1 = AccessOutcome.denied ↔ required = Permissions.NONE)) := by
  have hd : ∀ a s, accessDecision required a s = decide (7 &&& required > 0) := by
    intro a s
    unfold accessDecision
    rw [computeUserPermissions_eq_all]
  have hall : Permissions.ALL = 7 := rfl
  refine ⟨?_, ?_, ?_⟩
  · unfold accessControl
    rw [hd a1 s1, hd a2 s2]
  · intro h hne
    have h7 : 7 &&& required = required := by
      rw [Nat.land_comm]
      rw [hall] at h
      exact h
    unfold accessControl
    rw [hd a1 s1, h7]
    have hpos : required > 0 := Nat.pos_of_ne_zero hne
    simp [hpos]
  · intro h
    have h7 : 7 &&& required = required := by
      rw [Nat.land_comm]
      rw [hall] at h
      exact h
    unfold accessControl
    rw [hd a1 s1, h7]
    constructor
    · intro hden
      by_contra hne
      have hpos : required > 0 := Nat.pos_of_ne_zero hne
      simp [hpos] at hden
    · intro h0
      subst h0
      decide

/-- Witness for C3 at the `Permissions.ADMIN` mask: a non-admin user is
treated like an admin user and the handler is invoked. -/
theorem accessControl_ignores_user_witness :
    (accessControl Permissions.ADMIN true false = accessControl Permissions.ADMIN false true) ∧
    accessControl Permissions.ADMIN true false = AccessOutcome.invoked ∧
    (accessControl Permissions.ADMIN true false = AccessOutcome.denied ↔
      Permissions.ADMIN = Permissions.NONE) := by
  have h := accessControl_ignores_user Permissions.ADMIN true false false true
  exact ⟨h.1, h.2.1 (by decide) (by decide), h.2.2 (by decide)⟩

/-! ## Command argument tokenizer (src/utils.js, parseCommand)

`parseCommand` first matches the command line against
`^\/(\S+)(?:\s+(.*))?$` and then tokenizes the argument part with the
global regex `“([^”]*)”|"(.*?)"|(\S+)`.  The embedding below translates
those two regexes: `\s` is JavaScript's WhiteSpace/LineTerminator class,
`.` matches everything except LineTerminators, a negated class such as
`[^”]` matches LineTerminators too, and the global exec loop advances over
characters at which no alternative matches. -/

/-- JavaScript's `\s` class (WhiteSpace and LineTerminator code points). -/
def isSpaceJS (c : Char) : Bool :=
  c.toNat = 32 || c.toNat = 9 || c.toNat = 10 || c.toNat = 11 || c.toNat = 12 ||
  c.toNat = 13 || c.toNat = 0xa0 || c.toNat = 0x1680 ||
  (0x2000 ≤ c.toNat && c.toNat ≤ 0x200a) || c.toNat = 0x2028 || c.toNat = 0x2029 ||
  c.toNat = 0x202f || c.toNat = 0x205f || c.toNat = 0x3000 || c.toNat = 0xfeff

/-- `\S`. -/
def notSpaceJS (c : Char) : Bool := !isSpaceJS c

/-- JavaScript's LineTerminator code points, the characters `.` does not
match. -/
def isLineTermJS (c : Char) : Bool :=
  c.toNat = 10 || c.toNat = 13 || c.toNat = 0x2028 || c.toNat = 0x2029

/-- The opening curly quote `“` (U+201C). -/
def lquoteChar : Char := Char.ofNat 0x201c

/-- The closing curly quote `”` (U+201D). -/
def rquoteChar : Char := Char.ofNat 0x201d

/-- The straight quote `"`. -/
def dquoteChar : Char := '"'

/-- Split a list at the first occurrence of `c`: the content before it and
the remainder after it (`none` when `c` does not occur). -/
def dropUntilAfter (c : Char) : List Char → Option (List Char × List Char)
  | [] => none
  | x :: xs =>
      if x = c then some ([], xs)
      else
        match dropUntilAfter c xs with
        | some (pre, post) => some (x :: pre, post)
        | none => none

/-- One step of the global exec loop of `tokenRegex`: skip characters where
no alternative matches (whitespace), then try the curly-quote alternative,
the straight-quote alternative (whose lazy `.*?` cannot cross a
LineTerminator), and finally `\S+`. -/
def nextToken : List Char → Option (String × List Char)
  | [] => none
  | x :: xs =>
      if isSpaceJS x then nextToken xs
      else if x = lquoteChar then
        match dropUntilAfter rquoteChar xs with
        | some (content, rest) => some (String.mk content, rest)
        | none =>
            some (String.mk ((x :: xs).takeWhile notSpaceJS), (x :: xs).dropWhile notSpaceJS)
      else if x = dquoteChar then
        match dropUntilAfter dquoteChar xs with
        | some (content, rest) =>
            if content.any isLineTermJS then
              some (String.mk ((x :: xs).takeWhile notSpaceJS), (x :: xs).dropWhile notSpaceJS)
            else some (String.mk content, rest)
        | none =>
            some (String.mk ((x :: xs).takeWhile notSpaceJS), (x :: xs).dropWhile notSpaceJS)
      else
        some (String.mk ((x :: xs).takeWhile notSpaceJS), (x :: xs).dropWhile notSpaceJS)

/-- The exec loop, with fuel; each successful step consumes at least one
character, so `l.length + 1` fuel (as supplied by `tokenize`) never runs
out. -/
def tokenizeAux : Nat → List Char → List String
  | 0, _ => []
  | fuel + 1, l =>
      match nextToken l with
      | none => []
      | some (t, rest) => t :: tokenizeAux fuel rest

/-- The full tokenization of the argument part. -/
def tokenize (l : List Char) : List String := tokenizeAux (l.length + 1) l

/-- `parseCommand` on a list of characters: match `^\/(\S+)(?:\s+(.*))?$`
(the match fails, yielding `[]`, when the text does not start with `/`
followed by a nonempty `\S+` token, and also when the argument part after
the separating whitespace run contains a LineTerminator, which `(.*)$`
cannot match), then tokenize the argument part. -/
def parseCommandL (input : List Char) : List String :=
  match input with
  | [] => []
  | c :: rest =>
      if c = '/' then
        let cmdTok := rest.takeWhile notSpaceJS
        if cmdTok.isEmpty then []
        else
          let argsPart := (rest.dropWhile notSpaceJS).dropWhile isSpaceJS
          if argsPart.any isLineTermJS then [] else tokenize argsPart
      else []

/-- `parseCommand` of src/utils.js. -/
def parseCommand (s : String) : List String := parseCommandL s.data

/-- Modelled from the spec's words, for comparison with `tokenize`: plain
whitespace-run splitting ("tokenized on whitespace, with consecutive runs
treated as a single separator"). -/
def wsNext : List Char → Option (String × List Char)
  | [] => none
  | x :: xs =>
      if isSpaceJS x then wsNext xs
      else some (String.mk ((x :: xs).takeWhile notSpaceJS), (x :: xs).dropWhile notSpaceJS)

/-- Fuelled whitespace-run splitting loop. -/
def wsSplitAux : Nat → List Char → List String
  | 0, _ => []
  | fuel + 1, l =>
      match wsNext l with
      | none => []
      | some (t, rest) => t :: wsSplitAux fuel rest

/-- Whitespace-run splitting, the spec's description of unquoted
tokenization. -/
def specWhitespaceSplit (l : List Char) : List String := wsSplitAux (l.length + 1) l

theorem dropUntilAfter_length (c : Char) (l pre post : List Char)
    (h : dropUntilAfter c l = some (pre, post)) : post.length < l.length := by
  induction l generalizing pre post with
  | nil => cases h
  | cons x xs ih =>
      rw [dropUntilAfter] at h
      by_cases hx : x = c
      · rw [if_pos hx] at h
        cases h
        simp
      · rw [if_neg hx] at h
        cases hm : dropUntilAfter c xs with
        | none => rw [hm] at h; cases h
        | some pr =>
            rw [hm] at h
            cases pr with
            | mk pre2 post2 =>
                cases h
                exact Nat.lt_succ_of_lt (ih _ _ hm)

theorem nextToken_shrinks (l : List Char) (t : String) (rest : List Char)
    (h : nextToken l = some (t, rest)) : rest.length < l.length := by
  induction l generalizing t rest with
  | nil => cases h
  | cons x xs ih =>
      rw [nextToken] at h
      by_cases hs : isSpaceJS x = true
      · rw [if_pos hs] at h
        exact Nat.lt_succ_of_lt (ih t rest h)
      · rw [if_neg hs] at h
        have hsf : isSpaceJS x = false := by
          revert hs
          cases isSpaceJS x <;> simp
        have hdw : ((x :: xs).dropWhile notSpaceJS).length < (x :: xs).length := by
          have hx : notSpaceJS x = true := by simp [notSpaceJS, hsf]
          rw [List.dropWhile_cons, if_pos hx]
          exact Nat.lt_succ_of_le ((List.dropWhile_sublist notSpaceJS).length_le)
        by_cases hl : x = lquoteChar
        · rw [if_pos hl] at h
          cases hm : dropUntilAfter rquoteChar xs with
          | none =>
              rw [hm] at h
              cases h
              exact hdw
          | some pr =>
              rw [hm] at h
              cases pr with
              | mk content rest2 =>
                  cases h
                  exact Nat.lt_succ_of_lt (dropUntilAfter_length _ _ _ _ hm)
        · rw [if_neg hl] at h
          by_cases hq : x = dquoteChar
          · rw [if_pos hq] at h
            cases hm : dropUntilAfter dquoteChar xs with
            | none =>
                rw [hm] at h
                cases h
                exact hdw
            | some pr =>
                rw [hm] at h
                cases pr with
                | mk content rest2 =>
                    dsimp only at h
                    by_cases hterm : content.any isLineTermJS = true
                    · rw [if_pos hterm] at h
                      cases h
                      exact hdw
                    · rw [if_neg hterm] at h
                      cases h
                      exact Nat.lt_succ_of_lt (dropUntilAfter_length _ _ _ _ hm)
          · rw [if_neg hq] at h
            cases h
            exact hdw

/-- The fuel supplied by `tokenize` is irrelevant as long as it exceeds the
input length: the fuelled loop computes the fixpoint of the exec loop. -/
theorem tokenizeAux_fuel_stable (n : Nat) :
    ∀ (m : Nat) (l : List Char), l.length < n → l.length < m →
      tokenizeAux n l = tokenizeAux m l := by
  induction n with
  | zero => intro m l hn _; cases hn
  | succ n ih =>
      intro m l hn hm
      cases m with
      | zero => cases hm
      | succ m =>
          rw [tokenizeAux, tokenizeAux]
          cases hnt : nextToken l with
          | none => rfl
          | some pr =>
              cases pr with
              | mk t rest =>
                  have hlt := nextToken_shrinks l t rest hnt
                  dsimp only
                  rw [ih m rest (by omega) (by omega)]

theorem wsNext_mem (l : List Char) (t : String) (rest : List Char)
    (h : wsNext l = some (t, rest)) : ∀ c ∈ rest, c ∈ l := by
  induction l generalizing t rest with
  | nil => cases h
  | cons x xs ih =>
      rw [wsNext] at h
      by_cases hs : isSpaceJS x = true
      · rw [if_pos hs] at h
        intro c hc
        exact List.mem_cons_of_mem _ (ih t rest h c hc)
      · rw [if_neg hs] at h
        cases h
        exact fun c hc => (List.dropWhile_sublist notSpaceJS).subset hc

theorem nextToken_eq_wsNext (l : List Char)
    (hq : ∀ c ∈ l, c ≠ lquoteChar ∧ c ≠ dquoteChar) :
    nextToken l = wsNext l := by
  induction l with
  | nil => rfl
  | cons x xs ih =>
      rw [nextToken, wsNext]
      by_cases hs : isSpaceJS x = true
      · rw [if_pos hs, if_pos hs]
        exact ih (fun c hc => hq c (List.mem_cons_of_mem _ hc))
      · have hx := hq x (List.mem_cons_self x xs)
        rw [if_neg hs, if_neg hs, if_neg hx.1, if_neg hx.2]

theorem tokenizeAux_eq_wsSplitAux (n : Nat) :
    ∀ l : List Char, (∀ c ∈ l, c ≠ lquoteChar ∧ c ≠ dquoteChar) →
      tokenizeAux n l = wsSplitAux n l := by
  induction n with
  | zero => intro l _; rfl
  | succ n ih =>
      intro l h
      rw [tokenizeAux, wsSplitAux, nextToken_eq_wsNext l h]
      cases hw : wsNext l with
      | none => rfl
      | some pr =>
          cases pr with
          | mk t rest =>
              dsimp only
              rw [ih rest (fun c hc => h c (wsNext_mem l t rest hw c hc))]

/-- C10.  The argument tokenizer splits the text after the command token on
whitespace runs — on quote-free input it agrees with plain whitespace-run
splitting — while quoted spans (straight or curly) are preserved as single
arguments with their embedded whitespace, and an unpaired quote degrades to
a literal whitespace-delimited token: `/greet "John Smith" now` yields
`["John Smith", "now"]` and `/greet "John` yields `["\"John"]`. -/
theorem parseCommand_tokenization :
    (∀ l : List Char, (∀ c ∈ l, c ≠ lquoteChar ∧ c ≠ dquoteChar) →
      tokenize l = specWhitespaceSplit l) ∧
    parseCommand "/greet \"John Smith\" now" = ["John Smith", "now"] ∧
    parseCommand "/greet \"John" = ["\"John"] ∧
    parseCommand "/greet  a   b" = ["a", "b"] ∧
    parseCommand "/greet “Jane  Doe” x" = ["Jane  Doe", "x"] := by
  refine ⟨?_, by decide, by decide, by decide, by decide⟩
  intro l h
  exact tokenizeAux_eq_wsSplitAux (l.length + 1) l h

/-- Witness for C10's quote-free conjunct at a concrete argument list. -/
theorem parseCommand_tokenization_witness :
    tokenize ("ab  c".data) = specWhitespaceSplit ("ab  c".data) :=
  parseCommand_tokenization.1 ("ab  c".data) (by decide)

end TgBot
